import Mathlib

/-!
Verification development for the monad-devhub backend submission subsystem.

The Go sources are shallowly embedded: pure helpers from `internal/utils`
become Lean functions on `String`/`List Char`; the GORM-backed stores become
an explicit `Store` record threaded through the service functions; fallible
persistence calls are driven by an `Oracle` of failure flags, and each
service call returns the resulting store together with an `Except` outcome.
-/

namespace MonadDevhub

/-! ## Utils (`internal/utils/validation.go`) -/

/-- Model of Go `strings.Split(s, "-")` on the character list of `s`:
splits around every `'-'`; the empty list yields one empty group. -/
def splitOnDash : List Char → List (List Char)
  | [] => [[]]
  | c :: rest =>
    if c = '-' then [] :: splitOnDash rest
    else
      match splitOnDash rest with
      | [] => [[c]]
      | g :: gs => (c :: g) :: gs

/-- `Contains` from the utils package. -/
def Contains (slice : List String) (item : String) : Bool :=
  slice.any (fun s => s == item)

/-- Allowed category vocabulary from `ValidateCategories`. -/
def allowedCategories : List String :=
  ["DeFi", "Gaming", "AI", "Infrastructure", "Consumer", "NFT", "Stablecoins"]

/-- `ValidateCategories`: every submitted category is in the allowed list. -/
def ValidateCategories (categories : List String) : Bool :=
  categories.all (fun category => Contains allowedCategories category)

/-- Allowed event list from `ValidateEvent`. -/
def allowedEvents : List String :=
  ["Mission: 1 Crazy Contract", "Mission: 2 Smart Wallet",
   "Mission: 3 DeFi Integration", "Mission: 4 NFT Marketplace",
   "Hackathon 2023", "Hackathon 2024"]

/-- `ValidateEvent`: the event is a member of the fixed list. -/
def ValidateEvent (event : String) : Bool :=
  Contains allowedEvents event

/-- `ValidateStatus`: the five-value status enumeration. -/
def ValidateStatus (status : String) : Bool :=
  Contains ["pending", "under_review", "approved", "rejected", "requires_changes"] status

/-- `ValidateSubmissionID`: format gate over hyphen-split parts. -/
def ValidateSubmissionID (submissionID : String) : Bool :=
  let parts := splitOnDash submissionID.toList
  if parts.length ≠ 3 then false
  else if parts.getD 0 [] ≠ "SUB".toList then false
  else if (parts.getD 1 []).length < 10 then false
  else if (parts.getD 2 []).length ≠ 6 then false
  else true

/-- The 36-character charset of `generateRandomHash`. -/
def charsetChars : List Char :=
  "ABCDEFGHIJKLMNOPQRSTUVWXYZ0123456789".toList

/-- `generateRandomHash`: each random draw `rand.Intn(36)` is modelled as a
`Fin 36` index into the charset; the hash is the corresponding characters. -/
def generateRandomHash (picks : List (Fin 36)) : List Char :=
  picks.map (fun i => charsetChars.getD i.val 'A')

/-- Decimal rendering of a natural number, modelling `fmt.Sprintf` with the
`%d` verb for the non-negative `UnixMilli` value. -/
def natToDecimalChars (n : Nat) : List Char :=
  if n = 0 then ['0'] else ((Nat.digits 10 n).map Nat.digitChar).reverse

/-- `GenerateSubmissionID`: `SUB-<millisecond timestamp>-<6-char hash>`.
The clock reading and random draws are injected as arguments. -/
def GenerateSubmissionID (timestamp : Nat) (picks : List (Fin 36)) : String :=
  String.mk ("SUB".toList ++ '-' :: (natToDecimalChars timestamp ++ '-' :: generateRandomHash picks))

/-- The spec's wording of well-formedness: the string splits into exactly 3
hyphen-delimited parts, part 1 is the literal SUB tag, part 2 has at least
10 characters, part 3 exactly 6. -/
def specWellFormedID (s : String) : Prop :=
  ∃ p1 p2 p3, splitOnDash s.toList = [p1, p2, p3] ∧
    p1 = "SUB".toList ∧ 10 ≤ p2.length ∧ p3.length = 6

/-! ### Lemmas about the splitter and the generator -/

theorem splitOnDash_no_dash (l : List Char) (h : ∀ c ∈ l, c ≠ '-') :
    splitOnDash l = [l] := by
  induction l with
  | nil => rfl
  | cons c t ih =>
    have hc : c ≠ '-' := h c (List.mem_cons_self c t)
    have ht : splitOnDash t = [t] := ih (fun x hx => h x (List.mem_cons_of_mem c hx))
    simp [splitOnDash, hc, ht]

theorem splitOnDash_append_dash (l1 l2 : List Char) (h : ∀ c ∈ l1, c ≠ '-') :
    splitOnDash (l1 ++ '-' :: l2) = l1 :: splitOnDash l2 := by
  induction l1 with
  | nil => simp [splitOnDash]
  | cons c t ih =>
    have hc : c ≠ '-' := h c (List.mem_cons_self c t)
    have ht := ih (fun x hx => h x (List.mem_cons_of_mem c hx))
    simp [splitOnDash, hc, ht]

theorem natToDecimalChars_no_dash (n : Nat) :
    ∀ c ∈ natToDecimalChars n, c ≠ '-' := by
  intro c hc
  unfold natToDecimalChars at hc
  by_cases hn : n = 0
  · simp [hn] at hc
    simp [hc]
  · simp [hn] at hc
    obtain ⟨d, hd, rfl⟩ := hc
    have hdlt : d < 10 := Nat.digits_lt_base (by norm_num) hd
    have hgen : ∀ e, e < 10 → Nat.digitChar e ≠ '-' := by decide
    exact hgen d hdlt

theorem natToDecimalChars_length (n : Nat) (h : 10 ^ 9 ≤ n) :
    10 ≤ (natToDecimalChars n).length := by
  have hn : n ≠ 0 := by positivity
  unfold natToDecimalChars
  simp [hn]
  rw [Nat.digits_len 10 n (by norm_num) hn]
  have : 9 ≤ Nat.log 10 n := (Nat.pow_le_iff_le_log (by norm_num) hn).mp h
  omega

theorem generateRandomHash_no_dash (picks : List (Fin 36)) :
    ∀ c ∈ generateRandomHash picks, c ≠ '-' := by
  intro c hc
  unfold generateRandomHash at hc
  obtain ⟨i, _, rfl⟩ := List.mem_map.mp hc
  have hlen : charsetChars.length = 36 := rfl
  have hb : i.val < charsetChars.length := by rw [hlen]; exact i.isLt
  rw [List.getD_eq_getElem charsetChars 'A' hb]
  have hmem : charsetChars[i.val] ∈ charsetChars := List.getElem_mem hb
  revert hmem
  generalize charsetChars[i.val] = c
  revert c
  decide

/-! ## Data model (`internal/models/models.go`) -/

/-- `TeamMemberInput`: one entry of the submitted team-member list. -/
structure TeamMemberInput where
  name : String
  twitter : String
deriving DecidableEq, Repr

/-- `TeamMember`: a persisted team-member row owned by a project. -/
structure TeamMember where
  projectID : Nat
  name : String
  twitter : String
  image : String
deriving DecidableEq, Repr

/-- `Project`: a published project record; `id` is the store-assigned key. -/
structure Project where
  id : Nat
  name : String
  logo : String
  description : String
  categories : List String
  event : String
  award : String
  likes : Nat
  comments : Nat
  howToPlay : String
  playURL : String
  githubURL : Option String
  websiteURL : Option String
  teamMembers : List TeamMember
  submissionID : Option String
deriving DecidableEq, Repr

/-- The serialized team-member payload stored inside a submission
(a `jsonb` text column in the source). `empty` is the empty string, which
the promotion step skips without parsing; `wellFormed` carries the list a
successful `json.Unmarshal` would produce; `malformed` makes the
unmarshal fail. -/
inductive TeamMemberPayload where
  | empty : TeamMemberPayload
  | wellFormed : List TeamMemberInput → TeamMemberPayload
  | malformed : TeamMemberPayload
deriving DecidableEq, Repr

/-- `Submission`: the mutable workflow record. Times are clock ticks. -/
structure Submission where
  id : String
  projectName : String
  description : String
  photoLink : String
  event : String
  categories : List String
  teamMembers : TeamMemberPayload
  githubLink : Option String
  websiteLink : Option String
  playLink : String
  howToPlay : String
  additionalNotes : Option String
  status : String
  reviewerID : Option Nat
  feedback : Option String
  changesRequested : List String
  submittedAt : Nat
  reviewStartedAt : Option Nat
  reviewedAt : Option Nat
  publishedAt : Option Nat
  approvedProjectID : Option Nat
deriving DecidableEq, Repr

/-- Error taxonomy: the named errors the services return. -/
inductive Err where
  | notFound
  | duplicateProjectName
  | duplicateSubmission
  | invalidCategories
  | invalidEvent
  | invalidTeamMembers
  | deserialization
  | persistence
  | projectNotFound
deriving DecidableEq, Repr

/-- Decoding of the stored payload, modelling the promotion step's
`if submission.TeamMembers != "" { json.Unmarshal(...) }`. -/
def decodePayload : TeamMemberPayload → Except Err (List TeamMemberInput)
  | .empty => .ok []
  | .wellFormed l => .ok l
  | .malformed => .error .deserialization

/-! ## Stores (`internal/repository`) -/

/-- The shared datastore: submission rows, project rows (team members kept
inline on their project), and the next surrogate project key. -/
structure Store where
  submissions : List Submission
  projects : List Project
  nextProjectID : Nat
deriving DecidableEq, Repr

/-- Failure-injection flags for the individual persistence writes; a failed
write leaves the store unchanged (a GORM create/save/transaction that
errors does not commit). -/
structure Oracle where
  createProjectFails : Bool
  updateProjectFails : Bool
  createSubmissionFails : Bool
  updateSubmissionFails : Bool
deriving DecidableEq, Repr

/-- The oracle under which every persistence write succeeds. -/
def okOracle : Oracle :=
  { createProjectFails := false, updateProjectFails := false,
    createSubmissionFails := false, updateSubmissionFails := false }

/-- GORM `Save` keyed on the string primary key: replace the matching row,
or insert when absent. -/
def saveById : List Submission → Submission → List Submission
  | [], s => [s]
  | t :: ts, s => if t.id == s.id then s :: ts else t :: saveById ts s

/-- GORM `Save` keyed on the numeric project key. -/
def saveProjById : List Project → Project → List Project
  | [], p => [p]
  | q :: qs, p => if q.id == p.id then p :: qs else q :: saveProjById qs p

/-- `SubmissionRepository.GetSubmissionByID`. -/
def GetSubmissionByID (st : Store) (submissionID : String) : Option Submission :=
  st.submissions.find? (fun s => s.id == submissionID)

/-- `SubmissionRepository.GetSubmissionByProjectName`. -/
def GetSubmissionByProjectName (st : Store) (projectName : String) : Option Submission :=
  st.submissions.find? (fun s => s.projectName == projectName)

/-- `ProjectRepository.GetProjectByID`. -/
def GetProjectByID (st : Store) (id : Nat) : Option Project :=
  st.projects.find? (fun p => p.id == id)

/-- `ProjectRepository.GetProjectByName`. -/
def GetProjectByName (st : Store) (name : String) : Option Project :=
  st.projects.find? (fun p => p.name == name)

/-- `SubmissionRepository.CreateSubmission`. -/
def CreateSubmission (o : Oracle) (st : Store) (s : Submission) :
    Store × Except Err Unit :=
  if o.createSubmissionFails then (st, .error .persistence)
  else ({ st with submissions := st.submissions ++ [s] }, .ok ())

/-- `SubmissionRepository.UpdateSubmission` (`db.Save`). -/
def UpdateSubmission (o : Oracle) (st : Store) (s : Submission) :
    Store × Except Err Unit :=
  if o.updateSubmissionFails then (st, .error .persistence)
  else ({ st with submissions := saveById st.submissions s }, .ok ())

/-- `ProjectRepository.CreateProject`: the store assigns the surrogate key
and returns it (GORM writes it back into the passed record). -/
def CreateProject (o : Oracle) (st : Store) (p : Project) :
    Store × Except Err Nat :=
  if o.createProjectFails then (st, .error .persistence)
  else ({ st with
           projects := st.projects ++ [{ p with id := st.nextProjectID }],
           nextProjectID := st.nextProjectID + 1 },
        .ok st.nextProjectID)

/-- `ProjectRepository.UpdateProject`: saves the project row and its
team-member rows inside one transaction, so the write lands atomically or
not at all. -/
def UpdateProject (o : Oracle) (st : Store) (p : Project) :
    Store × Except Err Unit :=
  if o.updateProjectFails then (st, .error .persistence)
  else ({ st with projects := saveProjById st.projects p }, .ok ())

/-! ## Project service (`project_service.go`) -/

/-- `SubmitProjectRequest`. -/
structure SubmitProjectRequest where
  photoLink : String
  projectName : String
  description : String
  event : String
  categories : List String
  teamMembers : List TeamMemberInput
  githubLink : Option String
  websiteLink : Option String
  playLink : String
  howToPlay : String
  additionalNotes : Option String
deriving DecidableEq, Repr

/-- `SubmitProjectResponse`. -/
structure SubmitProjectResponse where
  success : Bool
  submissionID : String
  message : String
  estimatedReviewTime : String
  nextSteps : List String
deriving DecidableEq, Repr

/-- `validateSubmissionRequest`: categories, then event, then team members;
first failure wins, returning its named error. -/
def validateSubmissionRequest (req : SubmitProjectRequest) : Option Err :=
  if !ValidateCategories req.categories then some .invalidCategories
  else if !ValidateEvent req.event then some .invalidEvent
  else if req.teamMembers.any (fun m => m.name == "" || m.twitter == "") then
    some .invalidTeamMembers
  else none

/-- The submission row `SubmitProject` persists: status `pending`,
submitted-at now, team members serialized. -/
def newSubmission (req : SubmitProjectRequest) (submissionID : String) (now : Nat) :
    Submission :=
  { id := submissionID, projectName := req.projectName,
    description := req.description, photoLink := req.photoLink,
    event := req.event, categories := req.categories,
    teamMembers := .wellFormed req.teamMembers,
    githubLink := req.githubLink, websiteLink := req.websiteLink,
    playLink := req.playLink, howToPlay := req.howToPlay,
    additionalNotes := req.additionalNotes, status := "pending",
    reviewerID := none, feedback := none, changesRequested := [],
    submittedAt := now, reviewStartedAt := none, reviewedAt := none,
    publishedAt := none, approvedProjectID := none }

/-- `ProjectService.SubmitProject`: validation, project-name duplicate
check, submission duplicate check, then create. The generated identifier
and the clock reading are injected as `submissionID` and `now`. -/
def SubmitProject (o : Oracle) (st : Store) (req : SubmitProjectRequest)
    (submissionID : String) (now : Nat) :
    Store × Except Err SubmitProjectResponse :=
  match validateSubmissionRequest req with
  | some e => (st, .error e)
  | none =>
    match GetProjectByName st req.projectName with
    | some _ => (st, .error .duplicateProjectName)
    | none =>
      match GetSubmissionByProjectName st req.projectName with
      | some _ => (st, .error .duplicateSubmission)
      | none =>
        match CreateSubmission o st (newSubmission req submissionID now) with
        | (st1, .error e) => (st1, .error e)
        | (st1, .ok _) =>
          (st1, .ok
            { success := true, submissionID := submissionID,
              message := "Your project has been submitted successfully!",
              estimatedReviewTime := "2-3 business days",
              nextSteps :=
                ["We\x27ll review your submission within 2-3 business days",
                 "You\x27ll receive an email update when review is complete",
                 "Use submission ID " ++ submissionID ++ " to check status anytime"] })

/-! ## Submission lifecycle (`analytics_service.go`) -/

/-- The project record `createProjectFromSubmission` builds before
persisting: fields copied from the submission, award empty, counters 0,
no team members attached yet. -/
def projectFromSubmission (sub : Submission) : Project :=
  { id := 0, name := sub.projectName, logo := sub.photoLink,
    description := sub.description, categories := sub.categories,
    event := sub.event, award := "", likes := 0, comments := 0,
    howToPlay := sub.howToPlay, playURL := sub.playLink,
    githubURL := sub.githubLink, websiteURL := sub.websiteLink,
    teamMembers := [], submissionID := some sub.id }

/-- `createProjectFromSubmission`: decode the stored payload, create the
project, attach and persist the team members when there are any, and set
the submission's back-reference. The returned store reflects every write
that happened before a failure. -/
def createProjectFromSubmission (o : Oracle) (st : Store) (sub : Submission) :
    Store × Except Err Submission :=
  match decodePayload sub.teamMembers with
  | .error e => (st, .error e)
  | .ok teamMembersInput =>
    match CreateProject o st (projectFromSubmission sub) with
    | (st1, .error e) => (st1, .error e)
    | (st1, .ok pid) =>
      let teamMembers := teamMembersInput.map
        (fun mi => TeamMember.mk pid mi.name mi.twitter "")
      if teamMembers.length > 0 then
        match UpdateProject o st1
            { projectFromSubmission sub with id := pid, teamMembers := teamMembers } with
        | (st2, .error e) => (st2, .error e)
        | (st2, .ok _) => (st2, .ok { sub with approvedProjectID := some pid })
      else
        (st1, .ok { sub with approvedProjectID := some pid })

/-- `SubmissionService.UpdateSubmissionStatus` (the `Review` operation):
look up, overwrite review fields, stamp timestamps per the new status,
promote on a first approval, then persist the submission. -/
def UpdateSubmissionStatus (o : Oracle) (st : Store) (submissionID status : String)
    (feedback : Option String) (changesRequested : List String)
    (reviewerID : Option Nat) (now : Nat) : Store × Except Err Unit :=
  match GetSubmissionByID st submissionID with
  | none => (st, .error .notFound)
  | some submission =>
    let sub1 : Submission :=
      { submission with
          status := status, feedback := feedback,
          changesRequested := changesRequested, reviewerID := reviewerID }
    if status = "under_review" then
      if sub1.reviewStartedAt = none then
        UpdateSubmission o st { sub1 with reviewStartedAt := some now }
      else
        UpdateSubmission o st sub1
    else if status = "approved" ∨ status = "rejected" ∨ status = "requires_changes" then
      let sub2 : Submission := { sub1 with reviewedAt := some now }
      if status = "approved" ∧ submission.status ≠ "approved" ∧
          sub2.approvedProjectID = none then
        match createProjectFromSubmission o st sub2 with
        | (st1, .error e) => (st1, .error e)
        | (st1, .ok sub3) =>
          UpdateSubmission o st1 { sub3 with publishedAt := some now }
      else
        UpdateSubmission o st sub2
    else
      UpdateSubmission o st sub1

/-! ## Extras updater (`UpdateProjectExtras`) -/

/-- One `teamPhotos` entry (a JSON object in the source); a missing
`memberName`/`photoUrl` key is `none`. -/
structure PhotoEntry where
  memberName : Option String
  photoUrl : Option String
deriving DecidableEq, Repr

/-- One step of building the Go `photoMap`: entries with both keys present
and a non-empty URL overwrite the binding for their name. -/
def photoMapStep (f : String → Option String) (e : PhotoEntry) :
    String → Option String :=
  match e.memberName, e.photoUrl with
  | some n, some u => if u ≠ "" then (fun x => if x = n then some u else f x) else f
  | _, _ => f

/-- The name-to-URL lookup built from the `teamPhotos` list. -/
def buildPhotoMap (entries : List PhotoEntry) : String → Option String :=
  entries.foldl photoMapStep (fun _ => none)

/-- The team-photo pass over a project's members: members whose name has a
binding get that URL as image, everyone else is untouched. -/
def applyTeamPhotos (p : Project) (entries : List PhotoEntry) : Project :=
  { p with teamMembers := p.teamMembers.map (fun m =>
      match buildPhotoMap entries m.name with
      | some u => { m with image := u }
      | none => m) }

/-- `SubmissionService.UpdateProjectExtras`. -/
def UpdateProjectExtras (o : Oracle) (st : Store) (submissionID : String)
    (award : Option String) (teamPhotos : List PhotoEntry) :
    Store × Except Err Unit :=
  match GetSubmissionByID st submissionID with
  | none => (st, .error .notFound)
  | some submission =>
    match submission.approvedProjectID with
    | none => (st, .error .projectNotFound)
    | some pid =>
      match GetProjectByID st pid with
      | none => (st, .error .projectNotFound)
      | some project =>
        let project1 := match award with
          | some a => { project with award := a }
          | none => project
        let project2 := if teamPhotos.length > 0 then
            applyTeamPhotos project1 teamPhotos
          else project1
        UpdateProject o st project2

/-! ## Store lemmas -/

theorem find?_saveById (l : List Submission) (s : Submission) (i : String)
    (h : s.id = i) : (saveById l s).find? (fun t => t.id == i) = some s := by
  subst h
  induction l with
  | nil =>
    rw [saveById, List.find?_cons_of_pos _ (by simp)]
  | cons t ts ih =>
    rw [saveById]
    by_cases ht : (t.id == s.id) = true
    · rw [if_pos ht, List.find?_cons_of_pos _ (by simp)]
    · rw [if_neg (by simpa using ht), List.find?_cons_of_neg _ (by simpa using ht), ih]

theorem find?_saveProjById (l : List Project) (p : Project) (i : Nat)
    (h : p.id = i) : (saveProjById l p).find? (fun q => q.id == i) = some p := by
  subst h
  induction l with
  | nil =>
    rw [saveProjById, List.find?_cons_of_pos _ (by simp)]
  | cons q qs ih =>
    rw [saveProjById]
    by_cases hq : (q.id == p.id) = true
    · rw [if_pos hq, List.find?_cons_of_pos _ (by simp)]
    · rw [if_neg (by simpa using hq), List.find?_cons_of_neg _ (by simpa using hq), ih]

/-- A record found by key has that key. -/
theorem GetSubmissionByID_id {st : Store} {i : String} {s : Submission}
    (h : GetSubmissionByID st i = some s) : s.id = i := by
  have := List.find?_some h
  simpa using this

/-- A project found by key has that key. -/
theorem GetProjectByID_id {st : Store} {i : Nat} {p : Project}
    (h : GetProjectByID st i = some p) : p.id = i := by
  have := List.find?_some h
  simpa using this

/-- Saving an updated row for a fresh key appended at the end replaces
exactly that row. -/
theorem saveProjById_append_fresh (l : List Project) (p0 p : Project)
    (hfresh : ∀ q ∈ l, q.id ≠ p.id) (h0 : p0.id = p.id) :
    saveProjById (l ++ [p0]) p = l ++ [p] := by
  induction l with
  | nil => simp [saveProjById, h0]
  | cons q qs ih =>
    have hq : q.id ≠ p.id := hfresh q (List.mem_cons_self q qs)
    have : (q.id == p.id) = false := by simpa using hq
    simp [saveProjById, this]
    exact ih (fun r hr => hfresh r (List.mem_cons_of_mem q hr))

/-- `UpdateSubmission` never touches the project table or the key counter. -/
theorem UpdateSubmission_projects (o : Oracle) (st : Store) (s : Submission) :
    (UpdateSubmission o st s).1.projects = st.projects ∧
    (UpdateSubmission o st s).1.nextProjectID = st.nextProjectID := by
  unfold UpdateSubmission
  by_cases h : o.updateSubmissionFails <;> simp [h]

/-- The promotion step never touches the submission table. -/
theorem createProjectFromSubmission_submissions (o : Oracle) (st : Store)
    (sub : Submission) :
    (createProjectFromSubmission o st sub).1.submissions = st.submissions := by
  unfold createProjectFromSubmission
  cases hdec : decodePayload sub.teamMembers with
  | error e => simp
  | ok input =>
    simp only
    unfold CreateProject
    by_cases hc : o.createProjectFails = true
    · simp [hc]
    · simp only [hc, if_false, Bool.false_eq_true]
      rcases input with _ | ⟨mi0, rest⟩
      · simp
      · simp only [List.length_map, List.length_cons]
        rw [if_pos (by omega)]
        unfold UpdateProject
        by_cases hu : o.updateProjectFails = true <;> simp [hu]

/-- The freshly created project row together with its team-member rows, as
promotion of `sub` with decoded input `input` persists it. -/
def promotedProject (pid : Nat) (sub : Submission) (input : List TeamMemberInput) :
    Project :=
  { id := pid, name := sub.projectName, logo := sub.photoLink,
    description := sub.description, categories := sub.categories,
    event := sub.event, award := "", likes := 0, comments := 0,
    howToPlay := sub.howToPlay, playURL := sub.playLink,
    githubURL := sub.githubLink, websiteURL := sub.websiteLink,
    teamMembers := input.map (fun mi => TeamMember.mk pid mi.name mi.twitter ""),
    submissionID := some sub.id }

/-- Full computation of a successful promotion: one project row appended,
holding the member rows in input order, and the back-reference set. -/
theorem createProjectFromSubmission_ok (st : Store) (sub : Submission)
    (input : List TeamMemberInput)
    (hdec : decodePayload sub.teamMembers = .ok input)
    (hfresh : ∀ q ∈ st.projects, q.id ≠ st.nextProjectID) :
    createProjectFromSubmission okOracle st sub =
      ({ st with
          projects := st.projects ++ [promotedProject st.nextProjectID sub input],
          nextProjectID := st.nextProjectID + 1 },
       .ok { sub with approvedProjectID := some st.nextProjectID }) := by
  unfold createProjectFromSubmission
  rw [hdec]
  simp only
  unfold CreateProject okOracle
  simp only [if_false, Bool.false_eq_true]
  rcases input with _ | ⟨mi0, rest⟩
  · simp [promotedProject, projectFromSubmission]
  · simp only [List.length_map, List.length_cons]
    rw [if_pos (by omega)]
    unfold UpdateProject
    simp only [if_false, Bool.false_eq_true]
    have hrepl := saveProjById_append_fresh st.projects
      { projectFromSubmission sub with id := st.nextProjectID }
      { projectFromSubmission sub with
          id := st.nextProjectID,
          teamMembers := (mi0 :: rest).map
            (fun mi => TeamMember.mk st.nextProjectID mi.name mi.twitter "") }
      hfresh rfl
    simp only [projectFromSubmission, promotedProject]
    simp only [projectFromSubmission] at hrepl
    simpa using hrepl

/-! ## Claims -/

/-- Characterization of the validator's if-chain on an already-split list. -/
theorem validate_parts_iff (l : List (List Char)) :
    ((if l.length ≠ 3 then false
      else if l.getD 0 [] ≠ "SUB".toList then false
      else if (l.getD 1 []).length < 10 then false
      else if (l.getD 2 []).length ≠ 6 then false
      else true) = true) ↔
    ∃ p1 p2 p3, l = [p1, p2, p3] ∧ p1 = "SUB".toList ∧
      10 ≤ p2.length ∧ p3.length = 6 := by
  constructor
  · intro h
    by_cases h1 : l.length ≠ 3
    · rw [if_pos h1] at h
      exact absurd h (by simp)
    · rw [if_neg h1] at h
      by_cases h2 : l.getD 0 [] ≠ "SUB".toList
      · rw [if_pos h2] at h
        exact absurd h (by simp)
      · rw [if_neg h2] at h
        by_cases h3 : (l.getD 1 []).length < 10
        · rw [if_pos h3] at h
          exact absurd h (by simp)
        · rw [if_neg h3] at h
          by_cases h4 : (l.getD 2 []).length ≠ 6
          · rw [if_pos h4] at h
            exact absurd h (by simp)
          · obtain ⟨p1, p2, p3, rfl⟩ := List.length_eq_three.mp (not_not.mp h1)
            exact ⟨p1, p2, p3, rfl, by simpa using h2,
              by simpa using Nat.not_lt.mp h3, by simpa using h4⟩
  · rintro ⟨p1, p2, p3, rfl, rfl, hp2, hp3⟩
    simp [hp3, Nat.not_lt.mpr hp2]

/-- C4: every generated identifier (with a millisecond timestamp of at
least 10 decimal digits and 6 random draws) passes the validator; the
validator accepts a string iff it splits into exactly 3 hyphen-delimited
parts, part 1 the literal SUB tag, part 2 of length at least 10 and part 3
of length exactly 6; `SUB-123-AB` is rejected and
`SUB-1749035470531-4W6UZJ` accepted. -/
theorem C4_generator_matches_validator :
    (∀ (timestamp : Nat) (picks : List (Fin 36)), 10 ^ 9 ≤ timestamp →
      picks.length = 6 →
      ValidateSubmissionID (GenerateSubmissionID timestamp picks) = true) ∧
    (∀ s : String, ValidateSubmissionID s = true ↔ specWellFormedID s) ∧
    ValidateSubmissionID "SUB-123-AB" = false ∧
    ValidateSubmissionID "SUB-1749035470531-4W6UZJ" = true := by
  refine ⟨?_, ?_, by decide, by decide⟩
  · intro timestamp picks hts hlen
    have htl : (GenerateSubmissionID timestamp picks).toList =
        "SUB".toList ++ '-' ::
          (natToDecimalChars timestamp ++ '-' :: generateRandomHash picks) := rfl
    have hsplit : splitOnDash (GenerateSubmissionID timestamp picks).toList =
        ["SUB".toList, natToDecimalChars timestamp, generateRandomHash picks] := by
      rw [htl, splitOnDash_append_dash _ _ (by decide),
        splitOnDash_append_dash _ _ (natToDecimalChars_no_dash timestamp),
        splitOnDash_no_dash _ (generateRandomHash_no_dash picks)]
    have h2 : 10 ≤ (natToDecimalChars timestamp).length :=
      natToDecimalChars_length timestamp hts
    have h3 : (generateRandomHash picks).length = 6 := by
      simp [generateRandomHash, hlen]
    unfold ValidateSubmissionID
    rw [hsplit]
    exact (validate_parts_iff _).mpr
      ⟨_, _, _, rfl, rfl, h2, h3⟩
  · intro s
    unfold ValidateSubmissionID specWellFormedID
    exact validate_parts_iff (splitOnDash s.toList)

/-- Witness for C4 at a concrete timestamp and draw list. -/
theorem C4_witness :
    ValidateSubmissionID (GenerateSubmissionID 1749035470531
      [0, 1, 2, 3, 4, 5]) = true :=
  C4_generator_matches_validator.1 1749035470531 [0, 1, 2, 3, 4, 5]
    (by norm_num) rfl

/-- A valid concrete submit request used by witnesses. -/
def demoRequest : SubmitProjectRequest :=
  { photoLink := "p", projectName := "MonadSwap", description := "d",
    event := "Hackathon 2024", categories := ["DeFi"],
    teamMembers := [TeamMemberInput.mk "Alex" "a"], githubLink := none,
    websiteLink := none, playLink := "pl", howToPlay := "h",
    additionalNotes := none }

/-- The same request with a category outside the vocabulary. -/
def demoBadCategoriesRequest : SubmitProjectRequest :=
  { demoRequest with categories := ["Metaverse"] }

/-- A concrete published project named MonadSwap. -/
def demoProject : Project :=
  { id := 1, name := "MonadSwap", logo := "l", description := "d",
    categories := ["DeFi"], event := "Hackathon 2024", award := "",
    likes := 0, comments := 0, howToPlay := "h", playURL := "pl",
    githubURL := none, websiteURL := none, teamMembers := [],
    submissionID := none }

/-- A store holding both a submission and a project named MonadSwap. -/
def demoDupStore : Store :=
  { submissions := [newSubmission demoRequest "SUB-1749035470531-AAAAAA" 1],
    projects := [demoProject], nextProjectID := 2 }

/-- C7: the intake validation rules run before any duplicate check (the
named validation error wins over every store content) and short-circuit
in order categories, event, team members, each with its own named error;
a request passing all three yields no validation error. Categories
validate iff they are a subset of the fixed vocabulary. -/
theorem C7_validation_order_and_errors :
    (∀ cats, ValidateCategories cats = true ↔ ∀ c ∈ cats, c ∈ allowedCategories) ∧
    (∀ o st req submissionID now, ValidateCategories req.categories = false →
      SubmitProject o st req submissionID now = (st, .error .invalidCategories)) ∧
    (∀ o st req submissionID now, ValidateCategories req.categories = true →
      ValidateEvent req.event = false →
      SubmitProject o st req submissionID now = (st, .error .invalidEvent)) ∧
    (∀ o st req submissionID now, ValidateCategories req.categories = true →
      ValidateEvent req.event = true →
      (∃ m ∈ req.teamMembers, m.name = "" ∨ m.twitter = "") →
      SubmitProject o st req submissionID now = (st, .error .invalidTeamMembers)) ∧
    (∀ req, ValidateCategories req.categories = true →
      ValidateEvent req.event = true →
      (∀ m ∈ req.teamMembers, m.name ≠ "" ∧ m.twitter ≠ "") →
      validateSubmissionRequest req = none) := by
  refine ⟨?_, ?_, ?_, ?_, ?_⟩
  · intro cats
    simp [ValidateCategories, Contains, List.all_eq_true, List.any_eq_true]
  · intro o st req submissionID now h
    simp [SubmitProject, validateSubmissionRequest, h]
  · intro o st req submissionID now hc he
    simp [SubmitProject, validateSubmissionRequest, hc, he]
  · intro o st req submissionID now hc he hm
    have hany : req.teamMembers.any (fun m => m.name == "" || m.twitter == "") = true := by
      rw [List.any_eq_true]
      obtain ⟨m, hmem, hbad⟩ := hm
      exact ⟨m, hmem, by rcases hbad with h | h <;> simp [h]⟩
    simp [SubmitProject, validateSubmissionRequest, hc, he, hany]
  · intro req hc he hm
    have hany : req.teamMembers.any (fun m => m.name == "" || m.twitter == "") = false := by
      rw [Bool.eq_false_iff]
      intro hcontra
      obtain ⟨m, hmem, hbad⟩ := List.any_eq_true.mp hcontra
      rcases Bool.or_eq_true_iff.mp hbad with h | h
      · exact (hm m hmem).1 (by simpa using h)
      · exact (hm m hmem).2 (by simpa using h)
    simp [validateSubmissionRequest, hc, he, hany]

/-- Witness for C7: a concrete bad-category request is rejected with the
categories error even over a store holding a duplicate name. -/
theorem C7_witness :
    SubmitProject okOracle demoDupStore demoBadCategoriesRequest
      "SUB-1749035470531-4W6UZJ" 3 = (demoDupStore, .error .invalidCategories) :=
  C7_validation_order_and_errors.2.1 okOracle demoDupStore
    demoBadCategoriesRequest "SUB-1749035470531-4W6UZJ" 3 rfl

/-- C6: `SubmitProject` checks the project table for the requested name
before the submission table: a project match fails with the duplicate
project-name error even when a submission with that name also exists, a
submission match (with no project match) fails with the duplicate
submission error, and when both checks find nothing a submission with
status pending and submitted-at now is appended and the generated
identifier is returned. -/
theorem C6_duplicate_check_order :
    (∀ o st req submissionID now p,
      validateSubmissionRequest req = none →
      GetProjectByName st req.projectName = some p →
      SubmitProject o st req submissionID now = (st, .error .duplicateProjectName)) ∧
    (∀ o st req submissionID now s,
      validateSubmissionRequest req = none →
      GetProjectByName st req.projectName = none →
      GetSubmissionByProjectName st req.projectName = some s →
      SubmitProject o st req submissionID now = (st, .error .duplicateSubmission)) ∧
    (∀ st req submissionID now,
      validateSubmissionRequest req = none →
      GetProjectByName st req.projectName = none →
      GetSubmissionByProjectName st req.projectName = none →
      ∃ resp, SubmitProject okOracle st req submissionID now =
          ({ st with submissions := st.submissions ++ [newSubmission req submissionID now] },
           .ok resp) ∧
        resp.submissionID = submissionID ∧
        (newSubmission req submissionID now).status = "pending" ∧
        (newSubmission req submissionID now).submittedAt = now) := by
  refine ⟨?_, ?_, ?_⟩
  · intro o st req submissionID now p hv hp
    simp [SubmitProject, hv, hp]
  · intro o st req submissionID now s hv hp hs
    simp [SubmitProject, hv, hp, hs]
  · intro st req submissionID now hv hp hs
    have hcall : SubmitProject okOracle st req submissionID now =
        ({ st with submissions := st.submissions ++ [newSubmission req submissionID now] },
         .ok { success := true, submissionID := submissionID,
               message := "Your project has been submitted successfully!",
               estimatedReviewTime := "2-3 business days",
               nextSteps :=
                 ["We\x27ll review your submission within 2-3 business days",
                  "You\x27ll receive an email update when review is complete",
                  "Use submission ID " ++ submissionID ++ " to check status anytime"] }) := by
      simp [SubmitProject, hv, hp, hs, CreateSubmission, okOracle]
    exact ⟨_, hcall, rfl, rfl, rfl⟩

/-- Witness for C6: over a store holding both a project and a submission
named MonadSwap, submitting that name fails with the project-name error. -/
theorem C6_witness :
    SubmitProject okOracle demoDupStore demoRequest
      "SUB-1749035470531-4W6UZJ" 3 = (demoDupStore, .error .duplicateProjectName) :=
  C6_duplicate_check_order.1 okOracle demoDupStore demoRequest
    "SUB-1749035470531-4W6UZJ" 3 demoProject rfl rfl

/-- Inversion for a successful submission save. -/
theorem UpdateSubmission_ok_inv {o : Oracle} {st : Store} {s : Submission}
    {st' : Store} (h : UpdateSubmission o st s = (st', .ok ())) :
    st' = { st with submissions := saveById st.submissions s } := by
  unfold UpdateSubmission at h
  by_cases hf : o.updateSubmissionFails = true
  · rw [if_pos hf] at h
    simp at h
  · rw [if_neg hf] at h
    exact ((Prod.mk.injEq _ _ _ _).mp h).1.symm

/-- A successful promotion only sets the back-reference on the returned
submission record. -/
theorem createProjectFromSubmission_ok_inv {o : Oracle} {st : Store}
    {sub : Submission} {st1 : Store} {sub3 : Submission}
    (h : createProjectFromSubmission o st sub = (st1, .ok sub3)) :
    ∃ pid, sub3 = { sub with approvedProjectID := some pid } := by
  unfold createProjectFromSubmission at h
  cases hdec : decodePayload sub.teamMembers with
  | error e => rw [hdec] at h; simp at h
  | ok input =>
    rw [hdec] at h
    simp only at h
    unfold CreateProject at h
    by_cases hc : o.createProjectFails = true
    · rw [if_pos hc] at h
      simp at h
    · rw [if_neg hc] at h
      simp only at h
      rcases input with _ | ⟨mi0, rest⟩
      · simp at h
        exact ⟨st.nextProjectID, h.2.symm⟩
      · simp only [List.length_map, List.length_cons] at h
        rw [if_pos (by omega)] at h
        unfold UpdateProject at h
        by_cases hu : o.updateProjectFails = true
        · rw [if_pos hu] at h
          simp at h
        · rw [if_neg hu] at h
          simp at h
          exact ⟨st.nextProjectID, h.2.symm⟩

/-- Abbreviation for the review-field overwrite `UpdateSubmissionStatus`
performs unconditionally (status, feedback, changes-requested, reviewer). -/
def reviewedFields (sub : Submission) (status : String) (feedback : Option String)
    (changesRequested : List String) (reviewerID : Option Nat) : Submission :=
  { sub with
      status := status, feedback := feedback,
      changesRequested := changesRequested, reviewerID := reviewerID }

/-- Under the all-writes-succeed oracle, a submission save lands. -/
theorem UpdateSubmission_okOracle (st : Store) (s : Submission) :
    UpdateSubmission okOracle st s =
      ({ st with submissions := saveById st.submissions s }, .ok ()) := rfl

/-- C9: `pending` is an accepted review status, and reviewing to `pending`
overwrites exactly status, feedback, changes-requested and reviewer
reference on the stored record: no timestamp is stamped, the back-reference
keeps its value, and the project table is untouched. -/
theorem C9_review_pending_frame :
    ValidateStatus "pending" = true ∧
    (∀ st submissionID sub feedback changesRequested reviewerID now,
      GetSubmissionByID st submissionID = some sub →
      ∃ st', UpdateSubmissionStatus okOracle st submissionID "pending"
          feedback changesRequested reviewerID now = (st', .ok ()) ∧
        GetSubmissionByID st' submissionID =
          some (reviewedFields sub "pending" feedback changesRequested reviewerID) ∧
        st'.projects = st.projects ∧ st'.nextProjectID = st.nextProjectID) := by
  refine ⟨rfl, ?_⟩
  intro st submissionID sub feedback changesRequested reviewerID now hfind
  have hid : sub.id = submissionID := GetSubmissionByID_id hfind
  have hcall : UpdateSubmissionStatus okOracle st submissionID "pending"
      feedback changesRequested reviewerID now =
      ({ st with submissions := saveById st.submissions (reviewedFields sub "pending" feedback changesRequested reviewerID) },
       .ok ()) := by
    unfold UpdateSubmissionStatus
    rw [hfind]
    simp only
    rw [if_neg (by decide), if_neg (by decide)]
    rfl
  exact ⟨_, hcall,
    find?_saveById st.submissions _ submissionID hid, rfl, rfl⟩

/-- Witness for C9 on a concrete store. -/
theorem C9_witness :
    ∃ st', UpdateSubmissionStatus okOracle demoDupStore
        "SUB-1749035470531-AAAAAA" "pending" (some "fb") ["c1"] (some 7) 9 =
        (st', .ok ()) ∧
      GetSubmissionByID st' "SUB-1749035470531-AAAAAA" =
        some (reviewedFields (newSubmission demoRequest "SUB-1749035470531-AAAAAA" 1)
          "pending" (some "fb") ["c1"] (some 7)) ∧
      st'.projects = demoDupStore.projects ∧
      st'.nextProjectID = demoDupStore.nextProjectID :=
  C9_review_pending_frame.2 demoDupStore "SUB-1749035470531-AAAAAA"
    (newSubmission demoRequest "SUB-1749035470531-AAAAAA" 1)
    (some "fb") ["c1"] (some 7) 9 rfl

/-- Branch reduction: first entry into review stamps review-started-at. -/
theorem reviewBranch_under_review_first (o : Oracle) (st : Store)
    (submissionID : String) (sub : Submission) (fb : Option String)
    (cr : List String) (rid : Option Nat) (now : Nat)
    (hfind : GetSubmissionByID st submissionID = some sub)
    (hunset : sub.reviewStartedAt = none) :
    UpdateSubmissionStatus o st submissionID "under_review" fb cr rid now =
      UpdateSubmission o st
        { reviewedFields sub "under_review" fb cr rid with reviewStartedAt := some now } := by
  unfold UpdateSubmissionStatus
  rw [hfind]
  simp only
  rw [if_pos (by decide), if_pos hunset]
  rfl

/-- Branch reduction: a later `under_review` keeps the existing stamp. -/
theorem reviewBranch_under_review_again (o : Oracle) (st : Store)
    (submissionID : String) (sub : Submission) (fb : Option String)
    (cr : List String) (rid : Option Nat) (now : Nat)
    (hfind : GetSubmissionByID st submissionID = some sub)
    (hset : ¬sub.reviewStartedAt = none) :
    UpdateSubmissionStatus o st submissionID "under_review" fb cr rid now =
      UpdateSubmission o st (reviewedFields sub "under_review" fb cr rid) := by
  unfold UpdateSubmissionStatus
  rw [hfind]
  simp only
  rw [if_pos (by decide), if_neg hset]
  rfl

/-- Branch reduction: a decision status without promotion stamps
reviewed-at and persists. -/
theorem reviewBranch_decision_no_promo (o : Oracle) (st : Store)
    (submissionID : String) (sub : Submission) (status : String)
    (fb : Option String) (cr : List String) (rid : Option Nat) (now : Nat)
    (hfind : GetSubmissionByID st submissionID = some sub)
    (hdec : status = "approved" ∨ status = "rejected" ∨ status = "requires_changes")
    (hguard : ¬(status = "approved" ∧ sub.status ≠ "approved" ∧
      sub.approvedProjectID = none)) :
    UpdateSubmissionStatus o st submissionID status fb cr rid now =
      UpdateSubmission o st
        { reviewedFields sub status fb cr rid with reviewedAt := some now } := by
  rcases hdec with rfl | rfl | rfl
  · unfold UpdateSubmissionStatus
    rw [hfind]
    simp only
    rw [if_neg (by decide), if_pos (by decide),
      if_neg (by exact fun hcon => hguard ⟨rfl, hcon.2⟩)]
    rfl
  · unfold UpdateSubmissionStatus
    rw [hfind]
    simp only
    rw [if_neg (by decide), if_pos (by decide),
      if_neg (by exact fun hcon => absurd hcon.1 (by decide))]
    rfl
  · unfold UpdateSubmissionStatus
    rw [hfind]
    simp only
    rw [if_neg (by decide), if_pos (by decide),
      if_neg (by exact fun hcon => absurd hcon.1 (by decide))]
    rfl

/-- Branch reduction: a first approval runs the promotion step and, on
its success, persists the submission with published-at stamped. -/
theorem reviewBranch_promo (o : Oracle) (st : Store)
    (submissionID : String) (sub : Submission) (fb : Option String)
    (cr : List String) (rid : Option Nat) (now : Nat)
    (hfind : GetSubmissionByID st submissionID = some sub)
    (hprev : sub.status ≠ "approved")
    (hlink : sub.approvedProjectID = none) :
    UpdateSubmissionStatus o st submissionID "approved" fb cr rid now =
      (match createProjectFromSubmission o st
          { reviewedFields sub "approved" fb cr rid with reviewedAt := some now } with
       | (st1, Except.error e) => (st1, Except.error e)
       | (st1, Except.ok sub3) =>
         UpdateSubmission o st1 { sub3 with publishedAt := some now }) := by
  unfold UpdateSubmissionStatus
  rw [hfind]
  simp only
  rw [if_neg (by decide), if_pos (by decide),
    if_pos (by exact ⟨by decide, hprev, hlink⟩)]
  rfl

/-- C8: the first `under_review` review stamps review-started-at and a
second `under_review` review keeps the first stamp (write-once), while
every successful review to one of the three decision statuses re-stamps
reviewed-at with the current clock unconditionally. -/
theorem C8_review_timestamps :
    (∀ st submissionID sub fb cr rid fb2 cr2 rid2 now1 now2,
      GetSubmissionByID st submissionID = some sub →
      sub.reviewStartedAt = none →
      ∃ st' sub', UpdateSubmissionStatus okOracle st submissionID "under_review"
          fb cr rid now1 = (st', .ok ()) ∧
        GetSubmissionByID st' submissionID = some sub' ∧
        sub'.reviewStartedAt = some now1 ∧
        ∃ st'' sub'', UpdateSubmissionStatus okOracle st' submissionID "under_review"
            fb2 cr2 rid2 now2 = (st'', .ok ()) ∧
          GetSubmissionByID st'' submissionID = some sub'' ∧
          sub''.reviewStartedAt = some now1) ∧
    (∀ o st submissionID sub status fb cr rid now st',
      GetSubmissionByID st submissionID = some sub →
      (status = "approved" ∨ status = "rejected" ∨ status = "requires_changes") →
      UpdateSubmissionStatus o st submissionID status fb cr rid now = (st', .ok ()) →
      ∃ sub', GetSubmissionByID st' submissionID = some sub' ∧
        sub'.reviewedAt = some now) := by
  constructor
  · intro st submissionID sub fb cr rid fb2 cr2 rid2 now1 now2 hfind hunset
    have hid : sub.id = submissionID := GetSubmissionByID_id hfind
    have hcall1 := reviewBranch_under_review_first okOracle st submissionID sub
      fb cr rid now1 hfind hunset
    rw [UpdateSubmission_okOracle] at hcall1
    have hfind2 : GetSubmissionByID
        { st with submissions := saveById st.submissions { reviewedFields sub "under_review" fb cr rid with reviewStartedAt := some now1 } }
        submissionID =
        some { reviewedFields sub "under_review" fb cr rid with reviewStartedAt := some now1 } :=
      find?_saveById st.submissions _ submissionID hid
    have hcall2 := reviewBranch_under_review_again okOracle _ submissionID
      { reviewedFields sub "under_review" fb cr rid with reviewStartedAt := some now1 }
      fb2 cr2 rid2 now2 hfind2 (by simp)
    rw [UpdateSubmission_okOracle] at hcall2
    exact ⟨_, _, hcall1, hfind2, rfl,
      ⟨_, _, hcall2, find?_saveById _ _ submissionID hid, rfl⟩⟩
  · intro o st submissionID sub status fb cr rid now st' hfind hstatus hcall
    have hid : sub.id = submissionID := GetSubmissionByID_id hfind
    by_cases hguard : status = "approved" ∧ sub.status ≠ "approved" ∧
        sub.approvedProjectID = none
    · rw [hguard.1] at hcall
      rw [reviewBranch_promo o st submissionID sub fb cr rid now hfind
        hguard.2.1 hguard.2.2] at hcall
      rcases hcps : createProjectFromSubmission o st
          { reviewedFields sub "approved" fb cr rid with reviewedAt := some now } with ⟨st1, r⟩
      rw [hcps] at hcall
      rcases r with e | sub3
      · simp at hcall
      · simp only at hcall
        obtain ⟨pid, hsub3⟩ := createProjectFromSubmission_ok_inv hcps
        have hst' := UpdateSubmission_ok_inv hcall
        subst hst'
        refine ⟨_, find?_saveById st1.submissions _ submissionID ?_, ?_⟩
        · rw [hsub3]
          exact hid
        · rw [hsub3]
    · rw [reviewBranch_decision_no_promo o st submissionID sub status fb cr rid
        now hfind hstatus hguard] at hcall
      have hst' := UpdateSubmission_ok_inv hcall
      subst hst'
      exact ⟨_, find?_saveById st.submissions _ submissionID hid, rfl⟩

/-- Witness for C8: two consecutive `under_review` reviews on a concrete
store keep the first clock stamp. -/
theorem C8_witness :
    ∃ st' sub', UpdateSubmissionStatus okOracle demoDupStore
        "SUB-1749035470531-AAAAAA" "under_review" none [] (some 7) 11 = (st', .ok ()) ∧
      GetSubmissionByID st' "SUB-1749035470531-AAAAAA" = some sub' ∧
      sub'.reviewStartedAt = some 11 ∧
      ∃ st'' sub'', UpdateSubmissionStatus okOracle st'
          "SUB-1749035470531-AAAAAA" "under_review" none [] (some 8) 12 = (st'', .ok ()) ∧
        GetSubmissionByID st'' "SUB-1749035470531-AAAAAA" = some sub'' ∧
        sub''.reviewStartedAt = some 11 :=
  C8_review_timestamps.1 demoDupStore "SUB-1749035470531-AAAAAA"
    (newSubmission demoRequest "SUB-1749035470531-AAAAAA" 1)
    none [] (some 7) none [] (some 8) 11 12 rfl rfl

/-- C3: whenever promotion fails (deserialization or a persistence step),
the whole Review call returns that error and the stored submission record
is exactly as before the call, its back-reference still unset. -/
theorem C3_promotion_failure_aborts_review (o : Oracle) (st : Store)
    (submissionID : String) (sub : Submission) (fb : Option String)
    (cr : List String) (rid : Option Nat) (now : Nat) (stP : Store) (e : Err)
    (hfind : GetSubmissionByID st submissionID = some sub)
    (hprev : sub.status ≠ "approved")
    (hlink : sub.approvedProjectID = none)
    (hfail : createProjectFromSubmission o st
        { reviewedFields sub "approved" fb cr rid with reviewedAt := some now } =
        (stP, .error e)) :
    UpdateSubmissionStatus o st submissionID "approved" fb cr rid now =
      (stP, .error e) ∧
    stP.submissions = st.submissions ∧
    GetSubmissionByID stP submissionID = some sub := by
  have hsubs : stP.submissions = st.submissions := by
    have hpre := createProjectFromSubmission_submissions o st
      { reviewedFields sub "approved" fb cr rid with reviewedAt := some now }
    rw [hfail] at hpre
    exact hpre
  refine ⟨?_, hsubs, ?_⟩
  · rw [reviewBranch_promo o st submissionID sub fb cr rid now hfind hprev hlink,
      hfail]
  · unfold GetSubmissionByID at hfind ⊢
    rw [hsubs]
    exact hfind

/-- A pending submission whose stored team-member payload is corrupt. -/
def demoMalformedSub : Submission :=
  { newSubmission demoRequest "SUB-1749035470531-BBBBBB" 1 with teamMembers := .malformed }

/-- A store holding only the corrupt-payload submission. -/
def demoMalformedStore : Store :=
  { submissions := [demoMalformedSub], projects := [], nextProjectID := 1 }

/-- Witness for C3: approving the corrupt-payload submission surfaces the
deserialization error and leaves the store untouched. -/
theorem C3_witness :
    UpdateSubmissionStatus okOracle demoMalformedStore "SUB-1749035470531-BBBBBB"
        "approved" none [] (some 7) 5 =
      (demoMalformedStore, .error .deserialization) ∧
    demoMalformedStore.submissions = demoMalformedStore.submissions ∧
    GetSubmissionByID demoMalformedStore "SUB-1749035470531-BBBBBB" =
      some demoMalformedSub :=
  C3_promotion_failure_aborts_review okOracle demoMalformedStore
    "SUB-1749035470531-BBBBBB" demoMalformedSub none [] (some 7) 5
    demoMalformedStore .deserialization rfl (by decide) rfl rfl

/-- C1: a first approval (previous status not approved, back-reference
unset) appends exactly one project row, copying the submission's fields,
with award empty, counters zero and the decoded team members in order
with empty photos; the stored submission gets published-at and the
back-reference to the new project; a second approval creates no second
project row. -/
theorem C1_first_approval_promotes_once (st : Store) (sub : Submission)
    (input : List TeamMemberInput) (fb fb2 : Option String)
    (cr cr2 : List String) (rid rid2 : Option Nat) (now now2 : Nat)
    (hfind : GetSubmissionByID st sub.id = some sub)
    (hfresh : ∀ q ∈ st.projects, q.id ≠ st.nextProjectID)
    (hstat : sub.status ≠ "approved")
    (hlink : sub.approvedProjectID = none)
    (hdec : decodePayload sub.teamMembers = .ok input) :
    ∃ st', UpdateSubmissionStatus okOracle st sub.id "approved" fb cr rid now =
        (st', .ok ()) ∧
      st'.projects = st.projects ++ [promotedProject st.nextProjectID sub input] ∧
      (∃ sub', GetSubmissionByID st' sub.id = some sub' ∧
        sub'.publishedAt = some now ∧
        sub'.approvedProjectID = some st.nextProjectID ∧
        sub'.status = "approved") ∧
      ∃ st'', UpdateSubmissionStatus okOracle st' sub.id "approved"
          fb2 cr2 rid2 now2 = (st'', .ok ()) ∧
        st''.projects = st'.projects := by
  have hcps := createProjectFromSubmission_ok st
    { reviewedFields sub "approved" fb cr rid with reviewedAt := some now }
    input hdec hfresh
  have hcall1 : UpdateSubmissionStatus okOracle st sub.id "approved" fb cr rid now =
      UpdateSubmission okOracle
        { st with projects := st.projects ++ [promotedProject st.nextProjectID sub input], nextProjectID := st.nextProjectID + 1 }
        { reviewedFields sub "approved" fb cr rid with reviewedAt := some now, approvedProjectID := some st.nextProjectID, publishedAt := some now } := by
    rw [reviewBranch_promo okOracle st sub.id sub fb cr rid now hfind hstat hlink,
      hcps]
    rfl
  rw [UpdateSubmission_okOracle] at hcall1
  have hfind2 : GetSubmissionByID
      { st with projects := st.projects ++ [promotedProject st.nextProjectID sub input], nextProjectID := st.nextProjectID + 1, submissions := saveById st.submissions { reviewedFields sub "approved" fb cr rid with reviewedAt := some now, approvedProjectID := some st.nextProjectID, publishedAt := some now } }
      sub.id =
      some { reviewedFields sub "approved" fb cr rid with reviewedAt := some now, approvedProjectID := some st.nextProjectID, publishedAt := some now } :=
    find?_saveById st.submissions _ sub.id rfl
  have hcall2 := reviewBranch_decision_no_promo okOracle _ sub.id
    { reviewedFields sub "approved" fb cr rid with reviewedAt := some now, approvedProjectID := some st.nextProjectID, publishedAt := some now }
    "approved" fb2 cr2 rid2 now2 hfind2 (Or.inl rfl)
    (fun hcon => by simpa using hcon.2.2)
  rw [UpdateSubmission_okOracle] at hcall2
  exact ⟨_, hcall1, rfl, ⟨_, hfind2, rfl, rfl, rfl⟩, ⟨_, hcall2, rfl⟩⟩

/-- Witness for C1: approving the concrete pending MonadSwap submission. -/
theorem C1_witness :
    ∃ st', UpdateSubmissionStatus okOracle
        { submissions := [newSubmission demoRequest "SUB-1749035470531-CCCCCC" 1], projects := [], nextProjectID := 1 }
        "SUB-1749035470531-CCCCCC" "approved" (some "ok") [] (some 7) 5 =
        (st', .ok ()) ∧
      st'.projects = [] ++ [promotedProject 1 (newSubmission demoRequest "SUB-1749035470531-CCCCCC" 1) [TeamMemberInput.mk "Alex" "a"]] ∧
      (∃ sub', GetSubmissionByID st' "SUB-1749035470531-CCCCCC" = some sub' ∧
        sub'.publishedAt = some 5 ∧
        sub'.approvedProjectID = some 1 ∧
        sub'.status = "approved") ∧
      ∃ st'', UpdateSubmissionStatus okOracle st' "SUB-1749035470531-CCCCCC"
          "approved" (some "again") [] (some 8) 6 = (st'', .ok ()) ∧
        st''.projects = st'.projects :=
  C1_first_approval_promotes_once
    { submissions := [newSubmission demoRequest "SUB-1749035470531-CCCCCC" 1], projects := [], nextProjectID := 1 }
    (newSubmission demoRequest "SUB-1749035470531-CCCCCC" 1)
    [TeamMemberInput.mk "Alex" "a"] (some "ok") (some "again") [] [] (some 7)
    (some 8) 5 6 rfl (by simp) (by decide) rfl rfl

/-- A store holding only the pending MonadSwap submission. -/
def demoPendingStore : Store :=
  { submissions := [newSubmission demoRequest "SUB-1749035470531-CCCCCC" 1],
    projects := [], nextProjectID := 1 }

/-- The oracle under which only the team-member update write fails. -/
def updFailOracle : Oracle :=
  { createProjectFails := false, updateProjectFails := true,
    createSubmissionFails := false, updateSubmissionFails := false }

/-- Counterexample to C2: on the concrete pending store, approving with
the team-member update failing leaves a reachable store state in which
the MonadSwap project row is persisted with zero team members although
the submission's payload decodes to one member, while the call errors. -/
theorem C2_counterexample :
    (UpdateSubmissionStatus updFailOracle demoPendingStore
        "SUB-1749035470531-CCCCCC" "approved" none [] (some 7) 5).2 =
      .error .persistence ∧
    (UpdateSubmissionStatus updFailOracle demoPendingStore
        "SUB-1749035470531-CCCCCC" "approved" none [] (some 7) 5).1.projects.map
        (fun p => (p.name, p.teamMembers)) = [("MonadSwap", [])] ∧
    decodePayload (newSubmission demoRequest "SUB-1749035470531-CCCCCC" 1).teamMembers =
      .ok [TeamMemberInput.mk "Alex" "a"] :=
  ⟨rfl, rfl, rfl⟩

/-- C2 (amended): promotion issues two separate writes. Under an oracle
where every write succeeds the created project row carries all decoded
team members, but when the team-member update write fails after the
create, the store retains the project row with no team members and the
promotion step returns the persistence error. -/
theorem C2_amended_promotion_two_writes (st : Store) (sub : Submission)
    (input : List TeamMemberInput)
    (hdec : decodePayload sub.teamMembers = .ok input)
    (hfresh : ∀ q ∈ st.projects, q.id ≠ st.nextProjectID) :
    createProjectFromSubmission okOracle st sub =
      ({ st with projects := st.projects ++ [promotedProject st.nextProjectID sub input], nextProjectID := st.nextProjectID + 1 },
       .ok { sub with approvedProjectID := some st.nextProjectID }) ∧
    (input ≠ [] →
      createProjectFromSubmission updFailOracle st sub =
        ({ st with projects := st.projects ++ [{ promotedProject st.nextProjectID sub input with teamMembers := [] }], nextProjectID := st.nextProjectID + 1 },
         .error .persistence)) := by
  refine ⟨createProjectFromSubmission_ok st sub input hdec hfresh, ?_⟩
  intro hne
  unfold createProjectFromSubmission
  rw [hdec]
  simp only
  unfold CreateProject
  rw [if_neg (by decide)]
  rcases input with _ | ⟨mi0, rest⟩
  · exact absurd rfl hne
  · simp only [List.length_map, List.length_cons]
    rw [if_pos (by omega)]
    unfold UpdateProject
    rw [if_pos (by decide)]
    rfl

/-- Witness for the amended C2 at the concrete pending store: both the
all-members success form and the memberless partial-write failure form. -/
theorem C2_amended_witness :
    createProjectFromSubmission okOracle demoPendingStore
      (newSubmission demoRequest "SUB-1749035470531-CCCCCC" 1) =
      ({ demoPendingStore with projects := [promotedProject 1 (newSubmission demoRequest "SUB-1749035470531-CCCCCC" 1) [TeamMemberInput.mk "Alex" "a"]], nextProjectID := 2 },
       .ok { newSubmission demoRequest "SUB-1749035470531-CCCCCC" 1 with approvedProjectID := some 1 }) ∧
    createProjectFromSubmission updFailOracle demoPendingStore
      (newSubmission demoRequest "SUB-1749035470531-CCCCCC" 1) =
      ({ demoPendingStore with projects := [{ promotedProject 1 (newSubmission demoRequest "SUB-1749035470531-CCCCCC" 1) [TeamMemberInput.mk "Alex" "a"] with teamMembers := [] }], nextProjectID := 2 },
       .error .persistence) :=
  ⟨(C2_amended_promotion_two_writes demoPendingStore
      (newSubmission demoRequest "SUB-1749035470531-CCCCCC" 1)
      [TeamMemberInput.mk "Alex" "a"] rfl (by simp [demoPendingStore])).1,
   (C2_amended_promotion_two_writes demoPendingStore
      (newSubmission demoRequest "SUB-1749035470531-CCCCCC" 1)
      [TeamMemberInput.mk "Alex" "a"] rfl (by simp [demoPendingStore])).2
     (by decide)⟩

/-- Entries without both keys or with an empty URL leave the lookup
unchanged. -/
theorem photoMapStep_skip (f : String → Option String) (e : PhotoEntry)
    (h : e.memberName = none ∨ e.photoUrl = none ∨ e.photoUrl = some "") :
    photoMapStep f e = f := by
  rcases e with ⟨mn, pu⟩
  rcases h with h | h | h
  · simp only at h
    subst h
    cases pu <;> rfl
  · simp only at h
    subst h
    cases mn <;> rfl
  · simp only at h
    subst h
    cases mn <;> simp [photoMapStep]

/-- If every entry for a given name lacks a key or carries an empty URL,
the folded lookup maps that name to `none`. -/
theorem buildPhotoMap_skip_all (entries : List PhotoEntry)
    (f : String → Option String) (name : String) (hf : f name = none)
    (hall : ∀ e ∈ entries, e.memberName = some name →
      e.photoUrl = none ∨ e.photoUrl = some "") :
    entries.foldl photoMapStep f name = none := by
  induction entries generalizing f with
  | nil => exact hf
  | cons e es ih =>
    rw [List.foldl_cons]
    refine ih (photoMapStep f e) ?_
      (fun x hx hn => hall x (List.mem_cons_of_mem e hx) hn)
    rcases e with ⟨mn, pu⟩
    rcases mn with _ | n
    · cases pu <;> exact hf
    · rcases pu with _ | u
      · exact hf
      · by_cases hu : u = ""
        · subst hu
          rw [photoMapStep_skip f _ (Or.inr (Or.inr rfl))]
          exact hf
        · by_cases hn : n = name
          · subst hn
            have hbad := hall ⟨some n, some u⟩ (List.mem_cons_self _ _) rfl
            rcases hbad with hbad | hbad
            · simp at hbad
            · simp only [Option.some.injEq] at hbad
              exact absurd hbad hu
          · show (if u ≠ "" then (fun x => if x = n then some u else f x) else f) name = none
            rw [if_pos hu]
            exact (if_neg (fun hh => hn hh.symm)).trans hf

/-- C10: a team-photo entry with an empty URL or a missing key is
excluded from the lookup, so a member whose name is matched only by such
entries keeps its existing photo through the team-photo pass. -/
theorem C10_empty_photo_entries_ignored :
    (∀ (f : String → Option String) (e : PhotoEntry),
      (e.memberName = none ∨ e.photoUrl = none ∨ e.photoUrl = some "") →
      photoMapStep f e = f) ∧
    (∀ (entries : List PhotoEntry) (name : String),
      (∀ e ∈ entries, e.memberName = some name →
        e.photoUrl = none ∨ e.photoUrl = some "") →
      buildPhotoMap entries name = none) ∧
    (∀ (p : Project) (entries : List PhotoEntry),
      (applyTeamPhotos p entries).teamMembers = p.teamMembers.map (fun m =>
        match buildPhotoMap entries m.name with
        | some u => { m with image := u }
        | none => m)) ∧
    (∀ (m : TeamMember) (entries : List PhotoEntry),
      (∀ e ∈ entries, e.memberName = some m.name →
        e.photoUrl = none ∨ e.photoUrl = some "") →
      (match buildPhotoMap entries m.name with
       | some u => { m with image := u }
       | none => m) = m) := by
  refine ⟨photoMapStep_skip, ?_, fun p entries => rfl, ?_⟩
  · intro entries name hall
    exact buildPhotoMap_skip_all entries (fun _ => none) name rfl hall
  · intro m entries hall
    have h0 : buildPhotoMap entries m.name = none :=
      buildPhotoMap_skip_all entries (fun _ => none) m.name rfl hall
    rw [h0]

/-- Witness for C10: an empty-URL entry naming the member leaves the
member's photo as it was. -/
theorem C10_witness :
    (match buildPhotoMap [PhotoEntry.mk (some "Alex") (some "")]
        (TeamMember.mk 1 "Alex" "a" "old.png").name with
     | some u => { TeamMember.mk 1 "Alex" "a" "old.png" with image := u }
     | none => TeamMember.mk 1 "Alex" "a" "old.png") =
      TeamMember.mk 1 "Alex" "a" "old.png" :=
  C10_empty_photo_entries_ignored.2.2.2 (TeamMember.mk 1 "Alex" "a" "old.png")
    [PhotoEntry.mk (some "Alex") (some "")] (by decide)

/-- Under the all-writes-succeed oracle, a project save lands. -/
theorem UpdateProject_okOracle (st : Store) (p : Project) :
    UpdateProject okOracle st p =
      ({ st with projects := saveProjById st.projects p }, .ok ()) := rfl

/-- C5: extras on a submission with no linked project fail with the
project-not-found error and touch nothing; with team-photo entries, a
valid entry appended for a name wins over every earlier binding
(last-seen), and on a linked project the saved project's members are
exactly the old members with each name that has a binding overwritten to
the mapped URL and every other member unchanged. -/
theorem C5_update_extras :
    (∀ (o : Oracle) (st : Store) (submissionID : String)
      (award : Option String) (teamPhotos : List PhotoEntry) (sub : Submission),
      GetSubmissionByID st submissionID = some sub →
      sub.approvedProjectID = none →
      UpdateProjectExtras o st submissionID award teamPhotos =
        (st, .error .projectNotFound)) ∧
    (∀ (es : List PhotoEntry) (n u : String), u ≠ "" →
      buildPhotoMap (es ++ [PhotoEntry.mk (some n) (some u)]) n = some u) ∧
    (∀ (st : Store) (submissionID : String) (sub : Submission) (pid : Nat)
      (project : Project) (teamPhotos : List PhotoEntry),
      GetSubmissionByID st submissionID = some sub →
      sub.approvedProjectID = some pid →
      GetProjectByID st pid = some project →
      teamPhotos.length > 0 →
      ∃ st', UpdateProjectExtras okOracle st submissionID none teamPhotos =
          (st', .ok ()) ∧
        GetProjectByID st' pid =
          some { project with teamMembers := project.teamMembers.map (fun m => match buildPhotoMap teamPhotos m.name with | some u => { m with image := u } | none => m) }) := by
  refine ⟨?_, ?_, ?_⟩
  · intro o st submissionID award teamPhotos sub hfind hlink
    unfold UpdateProjectExtras
    rw [hfind]
    simp only
    rw [hlink]
  · intro es n u hu
    unfold buildPhotoMap
    rw [List.foldl_append]
    show (if u ≠ ""
        then (fun x => if x = n then some u
          else (List.foldl photoMapStep (fun _ => none) es) x)
        else (List.foldl photoMapStep (fun _ => none) es)) n = some u
    rw [if_pos hu]
    simp
  · intro st submissionID sub pid project teamPhotos hfind hpid hproj hlen
    have hpidEq : project.id = pid := GetProjectByID_id hproj
    have hcall : UpdateProjectExtras okOracle st submissionID none teamPhotos =
        ({ st with projects := saveProjById st.projects (applyTeamPhotos project teamPhotos) },
         .ok ()) := by
      unfold UpdateProjectExtras
      rw [hfind]
      simp only
      rw [hpid]
      simp only
      rw [hproj]
      simp only
      rw [if_pos hlen]
      rfl
    exact ⟨_, hcall, find?_saveProjById st.projects _ pid hpidEq⟩

/-- The published MonadSwap project with one member awaiting a photo. -/
def demoApprovedProject : Project :=
  { id := 1, name := "MonadSwap", logo := "p", description := "d",
    categories := ["DeFi"], event := "Hackathon 2024", award := "",
    likes := 0, comments := 0, howToPlay := "h", playURL := "pl",
    githubURL := none, websiteURL := none,
    teamMembers := [TeamMember.mk 1 "Alex" "a" ""],
    submissionID := some "SUB-1749035470531-DDDDDD" }

/-- The approved submission linked to the published project. -/
def demoApprovedSub : Submission :=
  { newSubmission demoRequest "SUB-1749035470531-DDDDDD" 1 with status := "approved", approvedProjectID := some 1 }

/-- A store holding the approved pair. -/
def demoApprovedStore : Store :=
  { submissions := [demoApprovedSub], projects := [demoApprovedProject],
    nextProjectID := 2 }

/-- Witness for C5: a concrete extras call overwrites Alex's photo. -/
theorem C5_witness :
    ∃ st', UpdateProjectExtras okOracle demoApprovedStore
        "SUB-1749035470531-DDDDDD" none
        [PhotoEntry.mk (some "Alex") (some "https://x/y.png")] = (st', .ok ()) ∧
      GetProjectByID st' 1 =
        some { demoApprovedProject with teamMembers := demoApprovedProject.teamMembers.map (fun m => match buildPhotoMap [PhotoEntry.mk (some "Alex") (some "https://x/y.png")] m.name with | some u => { m with image := u } | none => m) } :=
  C5_update_extras.2.2 demoApprovedStore "SUB-1749035470531-DDDDDD"
    demoApprovedSub 1 demoApprovedProject
    [PhotoEntry.mk (some "Alex") (some "https://x/y.png")] rfl rfl rfl
    (by decide)

end MonadDevhub
